import Mathlib

/-!
Verification of the PlasmaPy neoclassical-transport core (the
`plasmapy.transport` package: `Houlberg1997.py` and `flows.py`, plus
`plasmapy/plasma/fluxsurface.py`) against its natural-language
specification.

The development shallowly embeds the relevant code:

* Python's name-resolution rules, specialised to the modules at hand, as
  finite string tables (used by the claims about unbound-name failures);
* the numerical pipelines (trapezoidal/Simpson quadrature, the M-matrix
  closed forms, the charge-weighting factor, the flux-surface geometry and
  the flow solver) as executable functions over `ℚ`.  Wherever the source
  computes a real square root (`np.sqrt`, `** 0.5`) or the constant `π`,
  the embedding takes the value as an explicit argument constrained by its
  defining equation (`s ^ 2 = e ∧ 0 ≤ s`), so that every definition stays
  computable and every theorem can be evaluated on concrete inputs.
* IEEE NaN propagation (needed by the zero-density safety claim) as an
  `Option ℚ` value type where `none` plays the role of NaN/non-finite.
-/

/-! ## Python name resolution

A tiny model of CPython's scoping rules, sufficient for the modules under
study.  A name read inside a function body resolves as follows: if it is a
parameter or has already been assigned in this run of the body it is found;
otherwise, if it is assigned *somewhere* in the body it is a compile-time
local and the read raises `UnboundLocalError`; otherwise the module globals
and then the builtins are consulted, and failing those the read raises
`NameError`.  Class attributes are *not* in the enclosing scope of the
functions defined in the class body.
-/

/-- Result of executing a piece of Python: either success or the message of
the exception that aborted it. -/
abbrev PyResult := Except String Unit

/-- Resolve one name read inside a function body.
`params`: the function's parameters; `assigned`: names assigned so far in
this run; `locals`: all names assigned anywhere in the body (CPython's
compile-time local set); `globals`: the enclosing module's global names. -/
def pyReadName (globals locals params assigned : List String)
    (n : String) : PyResult :=
  if n ∈ params ∨ n ∈ assigned then .ok ()
  else if n ∈ locals then .error ("UnboundLocalError: " ++ n)
  else if n ∈ globals then .ok ()
  else if n ∈ pyBuiltins then .ok ()
  else .error ("NameError: " ++ n)
where
  /-- The (few) builtins the traced bodies consult. -/
  pyBuiltins : List String := ["len", "sum", "zip", "enumerate", "print"]

/-- One traced statement of a function body: the names it reads, in source
order, followed by the names it assigns. -/
structure PyStmt where
  reads : List String
  assigns : List String

/-- Run a function body: resolve each statement's reads in order (stopping
at the first unresolved name, as CPython does), then record its
assignments. -/
def pyRunBody (globals locals params : List String) :
    List String → List PyStmt → PyResult
  | _, [] => .ok ()
  | assigned, st :: rest =>
    match st.reads.findSome?
        (fun n => match pyReadName globals locals params assigned n with
          | .ok _ => none
          | .error e => some e) with
    | some e => .error e
    | none => pyRunBody globals locals params (st.assigns ++ assigned) rest

/-- Python's `from M import a, b, ...`: fails with `ImportError` at the
first requested name that is not an attribute of the module. -/
def pyFromImport (moduleNames requested : List String) : PyResult :=
  match requested.findSome?
      (fun n => if n ∈ moduleNames then none else some n) with
  | some n => .error ("ImportError: cannot import name " ++ n)
  | none => .ok ()

/-! ### The name tables of `plasmapy/transport/Houlberg1997.py`

Module-level bindings, in source order: the `__future__` import, the plain
imports, the `trapezoid` try/except import, `__all__`, the late imports,
`LaguerrePolynomials`, the class `ExtendedParticleList`, and the
module-level functions `_B17`, `F_m`, `ωm`.  Crucially,
`contributing_states`, `mu_hat`, `K`, `K_ps_ai`, `ν_T_ai`, `K_B_ai`,
`pitch_angle_diffusion_rate`, `M_script`, `N_script`, `ξ`,
`effective_momentum_relaxation_rate`, `N_matrix`, `M_matrix` and
`xab_ratio` are attributes of the class `ExtendedParticleList` (methods or
cached properties defined in the class body), not module-level names. -/
def houlbergModuleNames : List String :=
  ["annotations", "np", "constants", "u", "erf", "Union", "List",
   "Iterable", "cached_property", "warnings", "thermal_speed",
   "Coulomb_logarithm", "Chandrasekhar_G", "IonizationState",
   "IonizationStateCollection", "FluxSurface", "trapezoid", "__all__",
   "ParticleList", "validate_quantities", "LaguerrePolynomials",
   "ExtendedParticleList", "_B17", "F_m", "ωm"]

/-- The six names requested by `flows.py` line 19:
`from .Houlberg1997 import contributing_states, M_script, mu_hat,
N_script, ξ, ExtendedParticleList`. -/
def flowsImportRequest : List String :=
  ["contributing_states", "M_script", "mu_hat", "N_script", "ξ",
   "ExtendedParticleList"]

/-! ### The name tables of `plasmapy/transport/flows.py` -/

/-- Module-level bindings of `flows.py` (assuming its line-19 import had
succeeded; it does not, see `C1_flowcalculator_never_constructs`). -/
def flowsModuleNames : List String :=
  ["annotations", "__all__", "np", "typing", "xarray", "constants", "u",
   "defaultdict", "namedtuple", "IonizationStateCollection", "Particle",
   "FluxSurface", "contributing_states", "M_script", "mu_hat", "N_script",
   "ξ", "ExtendedParticleList", "cached_property", "particle_flux_unit",
   "heat_flux_unit", "InvalidElementError", "validate_quantities",
   "Fluxes", "FlowCalculator"]

/-- Parameters of `FlowCalculator.__init__` (flows.py lines 89-96):
`self`, `all_species`, `flux_surface`, and the keyword-only `mu_N` and
`dataset_input`.  `density_gradient` and `temperature_gradient` are *not*
among them. -/
def initParams : List String :=
  ["self", "all_species", "flux_surface", "mu_N", "dataset_input"]

/-- Every name assigned somewhere in the body of `FlowCalculator.__init__`
(flows.py lines 97-219); these are its compile-time locals.
`density_gradient` and `temperature_gradient` are assigned at lines
136-141 (inside the `for` loop), so the reads of them at lines 100-101
are reads of not-yet-assigned locals. -/
def initLocalNames : List String :=
  ["fs", "r_flows_list", "r_sources_list", "rbar_flows_list",
   "rbar_sources_list", "S_pt_list", "a", "sym", "charges",
   "n_charge_states", "xi", "T_i", "n_i", "density_gradient",
   "temperature_gradient", "pressure_gradient_over_n_i", "μ", "Aai",
   "S_pt_θ", "thermodynamic_forces", "CHARGE_STATE_AXIS", "BETA_AXIS",
   "S_pt", "r_pt", "r_sources", "rbar_sources", "S_flows", "r_flows",
   "rbar_flows", "i", "ai", "lhs", "rarray", "j", "b", "narray", "result",
   "rhs", "ubar", "Λ", "self_consistent_u", "u_velocity", "gen"]

/-- The opening statements of `FlowCalculator.__init__` (flows.py lines
97-100), as read/assign traces:
line 97  `self.all_species = all_species`;
line 98  `self._all_species_map = {pl[0].symbol: pl for pl in all_species}`;
line 99  `self.flux_surface = fs = flux_surface`;
line 100 `self.density_gradient = density_gradient`.
(Attribute stores on `self` bind no local name; the dict-comprehension
variable `pl` lives in its own scope.) -/
def initBodyPrefix : List PyStmt :=
  [⟨["all_species"], []⟩,
   ⟨["all_species"], []⟩,
   ⟨["flux_surface"], ["fs"]⟩,
   ⟨["density_gradient"], []⟩]

/-- Parameters of `ExtendedParticleList.K` (Houlberg1997.py lines
380-388).  Note the method's first parameter is `x`, not `self`. -/
def kParams : List String :=
  ["x", "a", "all_species", "flux_surface", "m_max", "orbit_squeezing"]

/-- Names assigned in the body of `K` (lines 411-415). -/
def kLocalNames : List String := ["kb", "kps"]

/-- Body of `K` (Houlberg1997.py lines 411-415):
`kb = K_B_ai(x, a, all_species, flux_surface, orbit_squeezing=...)`;
`kps = K_ps_ai(x, a, all_species, flux_surface, m_max=m_max)`;
`return 1 / (1 / kb + 1 / kps)`. -/
def kBody : List PyStmt :=
  [⟨["K_B_ai", "x", "a", "all_species", "flux_surface",
     "orbit_squeezing"], ["kb"]⟩,
   ⟨["K_ps_ai", "x", "a", "all_species", "flux_surface", "m_max"],
    ["kps"]⟩,
   ⟨["kb", "kps"], []⟩]

/-- Parameters of `ExtendedParticleList.mu_hat` (lines 417-426); again no
`self`. -/
def muHatParams : List String :=
  ["a", "all_species", "flux_surface", "xmin", "xmax", "N", "kwargs"]

/-- Names assigned in the body of `mu_hat` (lines 443-461); the
list-comprehension variable `o` has its own scope. -/
def muHatLocalNames : List String :=
  ["N", "orders", "π", "x", "α", "β", "len_a", "signs", "laguerres",
   "kterm", "xterm", "y", "integral", "mu_hat_ai", "actual_units"]

/-- Body of `mu_hat` (Houlberg1997.py lines 443-461) as a read/assign
trace, through the failing statement
`kterm = K(x, a, all_species, flux_surface, **kwargs)` (line 454). -/
def muHatBody : List PyStmt :=
  [⟨["N"], []⟩,                                   -- if N is None:
   ⟨[], ["N"]⟩,                                   --     N = 1000
   ⟨["np"], ["orders"]⟩,                          -- orders = np.arange(1, 4)
   ⟨["np"], ["π"]⟩,                               -- π = np.pi
   ⟨["np", "xmin", "xmax", "N"], ["x"]⟩,          -- x = np.logspace(...)
   ⟨["orders"], ["α"]⟩,
   ⟨["orders"], ["β"]⟩,
   ⟨["len", "a"], ["len_a"]⟩,
   ⟨["α", "β"], ["signs"]⟩,
   ⟨["np", "LaguerrePolynomials", "x", "orders"], ["laguerres"]⟩,
   ⟨["K", "x", "a", "all_species", "flux_surface", "kwargs"], ["kterm"]⟩]

/-- **C1.** For every choice of constructor arguments, constructing a
`FlowCalculator` fails before any numerical work is done.  The body of
`FlowCalculator.__init__` reads the names `density_gradient` and
`temperature_gradient`, which are not parameters of `__init__` and are not
bound in any enclosing scope (the read at line 100 aborts the body), and
the module-level import in `flows.py` of `M_script`, `mu_hat`, `N_script`
and `ξ` from the `Houlberg1997` module cannot succeed, because those names
are defined only as attributes of the `ExtendedParticleList` class, not at
module level.  Hence no `FlowCalculator` instance is ever produced.
Name resolution in Python is independent of the argument *values*, so the
trace below covers every choice of constructor arguments. -/
theorem C1_flowcalculator_never_constructs :
    ("M_script" ∉ houlbergModuleNames ∧ "mu_hat" ∉ houlbergModuleNames ∧
     "N_script" ∉ houlbergModuleNames ∧ "ξ" ∉ houlbergModuleNames) ∧
    pyFromImport houlbergModuleNames flowsImportRequest =
      .error "ImportError: cannot import name contributing_states" ∧
    ("density_gradient" ∉ initParams ∧
     "temperature_gradient" ∉ initParams ∧
     "density_gradient" ∉ flowsModuleNames ∧
     "temperature_gradient" ∉ flowsModuleNames) ∧
    pyRunBody flowsModuleNames initLocalNames initParams [] initBodyPrefix
      = .error "UnboundLocalError: density_gradient" :=
  ⟨by decide, rfl, by decide, rfl⟩

/-- **C3.** Every call of `ExtendedParticleList.mu_hat`, and of the
total-viscosity function `K` it relies on, fails with an unbound-name
error: `mu_hat`'s body applies the free name `K`, and `K`'s body applies
the free names `K_B_ai` and `K_ps_ai`, none of which are bound at module
scope (they exist only as class attributes, and these methods take no
`self` through which to reach them).  Again the failure is independent of
argument values. -/
theorem C3_mu_hat_and_K_unbound_names :
    ("K" ∉ houlbergModuleNames ∧ "K_B_ai" ∉ houlbergModuleNames ∧
     "K_ps_ai" ∉ houlbergModuleNames) ∧
    pyRunBody houlbergModuleNames kLocalNames kParams [] kBody =
      .error "NameError: K_B_ai" ∧
    pyRunBody houlbergModuleNames muHatLocalNames muHatParams [] muHatBody
      = .error "NameError: K" :=
  ⟨by decide, rfl, rfl⟩

/-! ## `mu_hat` (Houlberg1997.py lines 417-461): quadrature and the sign
factor

`np.trapz`-style trapezoidal quadrature of samples `y` over grid `x`, the
three Laguerre-like basis polynomials (module constant
`LaguerrePolynomials`, lines 58-62), and the two sign factors: the one the
code computes at line 452, `signs = (-1) * (α[:, None] + β[None, :])`,
i.e. `-(α+β)`, and the alternating sign `(-1)^(α+β)` stated by the spec
(and by equation 15 of Houlberg 1997, which the function's docstring cites).
-/

/-- Trapezoidal rule over a sample grid, as `np.trapz(y, x)` /
`scipy.integrate.trapezoid`. -/
def trapz : List ℚ → List ℚ → ℚ
  | y0 :: y1 :: ys, x0 :: x1 :: xs =>
      (x1 - x0) * (y0 + y1) / 2 + trapz (y1 :: ys) (x1 :: xs)
  | _, _ => 0

/-- `LaguerrePolynomials[o-1]` from Houlberg1997.py lines 58-62, applied
to an argument `y` (the code applies them at `y = x ** 2`). -/
def laguerreP : ℕ → ℚ → ℚ
  | 1, _ => 1
  | 2, y => 5 / 2 - y
  | 3, y => 35 / 8 - 7 / 2 * y + 1 / 2 * y ^ 2
  | _, _ => 0

/-- The sign factor the code computes (line 452):
`signs = (-1) * (α[:, None] + β[None, :])`. -/
def signsCode (a b : ℕ) : ℤ := -(a + b : ℤ)

/-- Modelled from the spec: the alternating sign `(−1)^(α+β)` that §4.3
step 6 of the spec (and eq. 15 of Houlberg 1997) prescribes. -/
def signsSpec (a b : ℕ) : ℤ := (-1) ^ (a + b)

/-- The trapezoidal integral of
`K(x)·x⁴·exp(−x²)·L_α(x²)·L_β(x²)` over the velocity grid `x`
(lines 453-458).  `Kvals` are the samples of the total viscosity `K` and
`Evals` the samples of `exp(−x²)` on the grid (the exponential is
irrational, so its sampled values are arguments here). -/
def muHatSamples (a b : ℕ) : List ℚ → List ℚ → List ℚ → List ℚ
  | xi :: xs, ki :: ks, ei :: es =>
      laguerreP a (xi ^ 2) * laguerreP b (xi ^ 2) * ki * (xi ^ 4 * ei) ::
        muHatSamples a b xs ks es
  | _, _, _ => []

def muHatIntegral (a b : ℕ) (x Kvals Evals : List ℚ) : ℚ :=
  trapz (muHatSamples a b x Kvals Evals) x

/-- The `(α,β)` entry of `mu_hat` for one charge state as the code writes
it (lines 458-460): `integral * signs * (8/3/sqrt(π)) * mass_density`,
with `signs = -(α+β)`.  `sqrtPi` stands for the source's `np.sqrt(π)`. -/
def muHatEntryCode (a b : ℕ) (x Kvals Evals : List ℚ) (ρ sqrtPi : ℚ) :
    ℚ :=
  8 / 3 / sqrtPi * (muHatIntegral a b x Kvals Evals * (signsCode a b : ℚ))
    * ρ

/-- Modelled from the spec: the same entry with the alternating sign
`(−1)^(α+β)` of spec §4.3 step 6 in place of the code's `-(α+β)`. -/
def muHatEntrySpec (a b : ℕ) (x Kvals Evals : List ℚ) (ρ sqrtPi : ℚ) :
    ℚ :=
  8 / 3 / sqrtPi * (muHatIntegral a b x Kvals Evals * (signsSpec a b : ℚ))
    * ρ

/-- **C2.** The claim (and eq. 15 of Houlberg 1997, cited by `mu_hat`'s
own docstring) prescribes the alternating sign `(−1)^(α+β)`; the code's
line 452 computes `(-1) * (α+β) = -(α+β)` instead — `(-1) *` where
`(-1) **` was meant.  At `α = β = 1` the two factors are `-2` and `+1`:
on the concrete two-point grid `x = [0,1]` with `K ≡ 1`, `exp(−x²)`
samples `≡ 1`, `mass_density = 1` and `sqrt(π)` stand-in `2`, the code's
entry is `-4/3` while the spec's formula gives `2/3`. -/
theorem C2_mu_hat_sign_bug :
    signsCode 1 1 = -2 ∧ signsSpec 1 1 = 1 ∧
    muHatIntegral 1 1 [0, 1] [1, 1] [1, 1] = 1 / 2 ∧
    muHatEntryCode 1 1 [0, 1] [1, 1] [1, 1] 1 2 = -(4 / 3) ∧
    muHatEntrySpec 1 1 [0, 1] [1, 1] [1, 1] 1 2 = 2 / 3 ∧
    muHatEntryCode 1 1 [0, 1] [1, 1] [1, 1] 1 2 ≠
      muHatEntrySpec 1 1 [0, 1] [1, 1] [1, 1] 1 2 := by
  refine ⟨rfl, rfl, ?_, ?_, ?_, ?_⟩ <;>
    simp [muHatEntryCode, muHatEntrySpec, muHatIntegral, muHatSamples,
      trapz, laguerreP, signsCode, signsSpec] <;> norm_num

/-! ## `M_matrix` (Houlberg1997.py lines 134-162)

The 3×3 test-particle matrix per ordered pair of charge states.
`xab_ratio` (line 136) uses `np.newaxis` and is genuinely pairwise:
`xab_ratio[a,b] = thermal_speed[a] / thermal_speed[b]`.  `mass_ratio`
(line 140) is **not**: `self.mass[:, ...] / self.mass[..., :]` inserts no
axes (an Ellipsis adds no dimensions when indexing a 1-D array), so at
runtime `mass_ratio` is the elementwise 1-D array `mass / mass` —
identically `1` for nonzero masses — and the `(1 + mass_ratio)` factors
of `M_matrix` broadcast that array along the last axis: the factor at
position `(a, b)` is `1 + mass[b] / mass[b]`, i.e. constantly `2`.

The source divides by half-integer powers `(1 + xab²) ** (k/2)`; here
`x2` denotes `xab_ratio[a,b]²` and `s` the value of `(1 + x2) ** (1/2)`,
so the denominators are odd powers of `s`, with `s` constrained by
`s ^ 2 = 1 + x2` in the theorems. -/

/-- `mass_ratio` as line 140 actually computes it: `mass[:, ...]` and
`mass[..., :]` are both just `mass`, so the sample broadcast into
`M_matrix` at column `b` is `mass b / mass b`. -/
def massRatioCode (mass : ℕ → ℚ) (b : ℕ) : ℚ := mass b / mass b

/-- For a nonzero mass the code's mass-ratio sample is `1`. -/
theorem massRatioCode_eq_one (mass : ℕ → ℚ) (b : ℕ) (h : mass b ≠ 0) :
    massRatioCode mass b = 1 := div_self h

/-- Entry `(i, j)` (0-based; source index `i+1, j+1`) of `M_matrix` for
the ordered pair `(a, b)`: `mr` is the broadcast mass-ratio sample at
column `b` (at runtime `massRatioCode mass b`, which is `1`), `x2` is
`xab_ratio[a,b]²`, and `s = sqrt (1 + x2)`. -/
def Mentry (mr x2 s : ℚ) : Fin 3 → Fin 3 → ℚ
  | 0, 0 => -(1 + mr) / s ^ 3
  | 0, 1 => 3 / 2 * (1 + mr) / s ^ 5
  | 1, 0 => 3 / 2 * (1 + mr) / s ^ 5
  | 1, 1 => (13 / 4 + 4 * x2 + 15 / 2 * x2 ^ 2) / s ^ 5
  | 0, 2 => -(15 / 8) * (1 + mr) / s ^ 7
  | 2, 0 => -(15 / 8) * (1 + mr) / s ^ 7
  | 1, 2 => (69 / 16 + 6 * x2 + 63 / 4 * x2 ^ 2) / s ^ 7
  | 2, 1 => (69 / 16 + 6 * x2 + 63 / 4 * x2 ^ 2) / s ^ 7
  | 2, 2 =>
      -(433 / 64 + 17 * x2 + 459 / 8 * x2 ^ 2 + 175 / 8 * x2 ^ 3) / s ^ 9

/-- **C8, counterexample.**  The claimed relation fails on the code even
for a bona-fide single-species pair.  Take two charge states of one
element with equal masses `m = 1` and per-state temperatures `T_a = 9`,
`T_b = 16` (the stored `T` is per charge state): then
`xab_ratio[a,b]² = T_a/T_b = 9/16` and `xab_ratio[b,a]² = 16/9`, with
square roots `5/4` and `5/3`, and the code's runtime mass-ratio samples
are `1/1 = 1` on both sides, so each `(1 + mass_ratio)` factor is `2`.
Entry `(1,1)` (source `M11 = -(1+mass_ratio)/(1+xab²)^{3/2}`) gives
`-256/125` on the left and `-108/125` on the right of the claimed
relation — a factor `≈ 2.37` apart, far outside any numerical tolerance,
so the relation is not a structural consequence of the closed forms. -/
theorem C8_counterexample :
    massRatioCode (fun _ => 1) 0 = 1 ∧ massRatioCode (fun _ => 1) 1 = 1 ∧
    ((5 : ℚ) / 4) ^ 2 = 1 + 9 / 16 ∧ (0 : ℚ) < 5 / 4 ∧
    ((5 : ℚ) / 3) ^ 2 = 1 + 16 / 9 ∧ (0 : ℚ) < 5 / 3 ∧
    ((16 : ℚ) / 9) = ((9 : ℚ) / 16)⁻¹ ∧
    Mentry (massRatioCode (fun _ => 1) 1) (9 / 16) (5 / 4) 0 0 *
        (1 + massRatioCode (fun _ => 1) 0) = -(256 / 125) ∧
    Mentry (massRatioCode (fun _ => 1) 0) (16 / 9) (5 / 3) 0 0 *
        (1 + massRatioCode (fun _ => 1) 1) = -(108 / 125) ∧
    Mentry (massRatioCode (fun _ => 1) 1) (9 / 16) (5 / 4) 0 0 *
        (1 + massRatioCode (fun _ => 1) 0) ≠
      Mentry (massRatioCode (fun _ => 1) 0) (16 / 9) (5 / 3) 0 0 *
        (1 + massRatioCode (fun _ => 1) 1) := by
  refine ⟨by norm_num [massRatioCode], by norm_num [massRatioCode],
    by norm_num, by norm_num, by norm_num, by norm_num, by norm_num,
    ?_, ?_, ?_⟩ <;> simp [Mentry, massRatioCode] <;> norm_num

/-- **C8, amended.**  On the code, the runtime `mass_ratio` samples are
identically `1`, so both `(1 + mass_ratio)` factors equal `2` and the
claimed relation is equivalent to entrywise symmetry `M[a,b] = M[b,a]`.
That symmetry holds — exactly, for all nine entries, with any value `t`
of the shared square root — when the two states' thermal speeds are
equal (`xab_ratio = 1`, so both ordered pairs have `x2 = 1`); and for
entry `(1,1)` it holds *only* then: with the square roots of `1 + x2`
and `1 + x2⁻¹` pinned positive, the relation at entry `(1,1)` is
equivalent to `x2 = 1`.  (A real single-species pair at equal
temperature has slightly different masses, hence `x2 ≠ 1` and exact
failure, approximate success; per-state temperature differences break it
grossly, as in the counterexample.) -/
theorem C8_amended (mass : ℕ → ℚ) (a b : ℕ) (x2 s s' : ℚ)
    (hma : mass a ≠ 0) (hmb : mass b ≠ 0)
    (hx2 : 0 < x2) (hs : 0 < s) (hs' : 0 < s')
    (h2 : s ^ 2 = 1 + x2) (h2' : s' ^ 2 = 1 + x2⁻¹) :
    (∀ (t : ℚ) (i j : Fin 3),
      Mentry (massRatioCode mass b) 1 t i j *
          (1 + massRatioCode mass a) =
        Mentry (massRatioCode mass a) 1 t i j *
          (1 + massRatioCode mass b)) ∧
    (Mentry (massRatioCode mass b) x2 s 0 0 *
          (1 + massRatioCode mass a) =
        Mentry (massRatioCode mass a) x2⁻¹ s' 0 0 *
          (1 + massRatioCode mass b) ↔ x2 = 1) := by
  have hA : massRatioCode mass a = 1 := massRatioCode_eq_one mass a hma
  have hB : massRatioCode mass b = 1 := massRatioCode_eq_one mass b hmb
  rw [hA, hB]
  have hsne : s ≠ 0 := ne_of_gt hs
  have hs'ne : s' ≠ 0 := ne_of_gt hs'
  have hx2ne : x2 ≠ 0 := ne_of_gt hx2
  refine ⟨fun t i j => rfl, ?_⟩
  simp only [Mentry]
  constructor
  · intro h
    have hss' : s = s' := by
      field_simp at h
      linarith
    have hsum : (1 : ℚ) + x2 = 1 + x2⁻¹ := by
      rw [← h2, ← h2', hss']
    have hxx : x2 = x2⁻¹ := by linarith
    have hsq : x2 * x2 = 1 := by
      calc x2 * x2 = x2⁻¹ * x2 := by rw [← hxx]
        _ = 1 := inv_mul_cancel₀ hx2ne
    have hfac2 : (x2 - 1) * (x2 + 1) = 0 := by linear_combination hsq
    rcases mul_eq_zero.1 hfac2 with h0 | h0
    · linarith
    · linarith
  · intro h
    subst h
    have e1 : s ^ 2 = 2 := by rw [h2]; norm_num
    have e2 : s' ^ 2 = 2 := by rw [h2']; norm_num
    have hfac : (s - s') * (s + s') = 0 := by linear_combination e1 - e2
    have hss' : s = s' := by
      rcases mul_eq_zero.1 hfac with h0 | h0
      · linarith
      · linarith
    rw [hss']

/-- Witness for `C8_amended`: equal masses `2`, `x2 = 9/16`
(`s = 5/4`, `s' = 5/3`), with the equal-thermal-speed part instantiated
at `t = 3`, entry `(1,2)` (0-based `(0,1)`). -/
theorem C8_amended_witness :
    (Mentry (massRatioCode (fun _ => 2) 1) 1 3 0 1 *
        (1 + massRatioCode (fun _ => 2) 0) =
      Mentry (massRatioCode (fun _ => 2) 0) 1 3 0 1 *
        (1 + massRatioCode (fun _ => 2) 1)) ∧
    (Mentry (massRatioCode (fun _ => 2) 1) (9 / 16) (5 / 4) 0 0 *
        (1 + massRatioCode (fun _ => 2) 0) =
      Mentry (massRatioCode (fun _ => 2) 0) ((9 / 16 : ℚ))⁻¹ (5 / 3) 0 0 *
        (1 + massRatioCode (fun _ => 2) 1) ↔ (9 : ℚ) / 16 = 1) := by
  have h := C8_amended (fun _ => 2) 0 1 (9 / 16) (5 / 4) (5 / 3)
    (by norm_num) (by norm_num) (by norm_num) (by norm_num) (by norm_num)
    (by norm_num) (by norm_num)
  exact ⟨h.1 3 0 1, h.2⟩

/-! ## `FluxSurface.__post_init__` (fluxsurface.py lines 21-43)

Arrays are embedded as functions `ℕ → ℚ` together with the sample count
`n`.  `np.gradient` (one-sided differences at the ends, central inside),
`np.cumsum`, and `scipy.integrate.cumulative_trapezoid` with `initial=0`
are embedded directly.  The source's `dL = sqrt(dR² + dZ²)`,
`Bp = ‖(Br, Bz)‖` and `Bmag = sqrt(Bp² + Bφ²)` involve square roots, so
`dL`, `Bp`, `Bmag` enter as arguments constrained by their defining
equations in the theorems. -/

/-- `np.gradient` of a length-`n` sample array: one-sided differences at
the two ends, central differences inside. -/
def npGradient (v : ℕ → ℚ) (n k : ℕ) : ℚ :=
  if k = 0 then v 1 - v 0
  else if k = n - 1 then v (n - 1) - v (n - 2)
  else (v (k + 1) - v (k - 1)) / 2

/-- `np.cumsum`: `cumsum v k = v 0 + ... + v k`.  The source's arc length
is `lp = np.cumsum(dL)`. -/
def cumsum (v : ℕ → ℚ) : ℕ → ℚ
  | 0 => v 0
  | k + 1 => cumsum v k + v (k + 1)

/-- `scipy.integrate.cumulative_trapezoid(y, x, initial=0)`. -/
def cumtrapz (y x : ℕ → ℚ) : ℕ → ℚ
  | 0 => 0
  | k + 1 => cumtrapz y x k + (x (k + 1) - x k) * (y (k + 1) + y k) / 2

/-- The unscaled poloidal-angle integral of fluxsurface.py lines 39-40:
the cumulative trapezoid of `Bmag/Bp` over `lp = cumsum dL`. -/
def fsThetaRaw (Bmag Bp dL : ℕ → ℚ) : ℕ → ℚ :=
  cumtrapz (fun j => Bmag j / Bp j) (cumsum dL)

/-- `gamma = 2π / integral[-1]` (line 41); `twopi` stands for the real
constant `2π` (positive; its exact value plays no role in the claims). -/
def fsGamma (n : ℕ) (Bmag Bp dL : ℕ → ℚ) (twopi : ℚ) : ℚ :=
  twopi / fsThetaRaw Bmag Bp dL (n - 1)

/-- `Theta = gamma * integral` (lines 42-43). -/
def fsTheta (n : ℕ) (Bmag Bp dL : ℕ → ℚ) (twopi : ℚ) (k : ℕ) : ℚ :=
  fsGamma n Bmag Bp dL twopi * fsThetaRaw Bmag Bp dL k

/-- Adjacent increment of the unscaled integral. -/
theorem fsThetaRaw_succ (Bmag Bp dL : ℕ → ℚ) (k : ℕ) :
    fsThetaRaw Bmag Bp dL (k + 1) =
      fsThetaRaw Bmag Bp dL k +
        dL (k + 1) * (Bmag (k + 1) / Bp (k + 1) + Bmag k / Bp k) / 2 := by
  show cumtrapz _ _ (k + 1) = _
  rw [cumtrapz]
  have : cumsum dL (k + 1) - cumsum dL k = dL (k + 1) := by
    rw [cumsum]; ring
  rw [this, fsThetaRaw]

/-- The integral is strictly increasing step by step while the integrand
stays positive and the arc-length steps are positive. -/
theorem fsThetaRaw_pos_step (Bmag Bp dL : ℕ → ℚ) (k : ℕ)
    (hf : 0 < Bmag k / Bp k) (hf' : 0 < Bmag (k + 1) / Bp (k + 1))
    (hdl : 0 < dL (k + 1)) :
    fsThetaRaw Bmag Bp dL k < fsThetaRaw Bmag Bp dL (k + 1) := by
  rw [fsThetaRaw_succ]
  nlinarith

/-- **C7, amended.**  For every flux surface whose poloidal field `Bp` is
strictly positive at every contour sample **and** whose arc-length steps
`dL k` (`k ≥ 1`), i.e. the increments of `lp = cumsum dL`, are strictly
positive (no degenerate/coincident consecutive samples — a hypothesis the
original claim lacks, see `C7_counterexample`), the poloidal-angle array
`Θ` starts at `0`, ends exactly at `2π`, and is strictly increasing.
`dL`, `Bp`, `Bmag` are constrained to be the source's square-root values
for the geometry `R, Z` and field samples `Br, Bz, Bphi`. -/
theorem C7_amended (n : ℕ) (R Z Br Bz Bphi dL Bp Bmag : ℕ → ℚ)
    (twopi : ℚ) (hn : 2 ≤ n)
    (hdL : ∀ k, k < n →
      dL k ^ 2 = npGradient R n k ^ 2 + npGradient Z n k ^ 2 ∧ 0 ≤ dL k)
    (hBp : ∀ k, k < n → Bp k ^ 2 = Br k ^ 2 + Bz k ^ 2 ∧ 0 < Bp k)
    (hBmag : ∀ k, k < n → Bmag k ^ 2 = Bp k ^ 2 + Bphi k ^ 2 ∧ 0 ≤ Bmag k)
    (hstep : ∀ k, 1 ≤ k → k < n → 0 < dL k)
    (htwopi : 0 < twopi) :
    fsTheta n Bmag Bp dL twopi 0 = 0 ∧
    fsTheta n Bmag Bp dL twopi (n - 1) = twopi ∧
    ∀ k, k + 1 ≤ n - 1 →
      fsTheta n Bmag Bp dL twopi k < fsTheta n Bmag Bp dL twopi (k + 1) := by
  have hf : ∀ k, k < n → 0 < Bmag k / Bp k := by
    intro k hk
    obtain ⟨hBp2, hBppos⟩ := hBp k hk
    obtain ⟨hBm2, hBmnn⟩ := hBmag k hk
    have hBmpos : 0 < Bmag k := by nlinarith [sq_nonneg (Bphi k)]
    exact div_pos hBmpos hBppos
  have hstepI : ∀ k, k + 1 ≤ n - 1 →
      fsThetaRaw Bmag Bp dL k < fsThetaRaw Bmag Bp dL (k + 1) := by
    intro k hk
    have hk1 : k + 1 < n := by omega
    have hk0 : k < n := by omega
    exact fsThetaRaw_pos_step Bmag Bp dL k (hf k hk0) (hf (k + 1) hk1)
      (hstep (k + 1) (by omega) hk1)
  have hIpos : ∀ m, m ≤ n - 1 → 1 ≤ m → 0 < fsThetaRaw Bmag Bp dL m := by
    intro m
    induction m with
    | zero => omega
    | succ j ih =>
      intro hm _
      rcases Nat.eq_zero_or_pos j with hj | hj
      · subst hj
        have := hstepI 0 hm
        simpa [fsThetaRaw, cumtrapz] using this
      · have h1 := ih (by omega) (by omega)
        have h2 := hstepI j hm
        linarith
  have hlast : 0 < fsThetaRaw Bmag Bp dL (n - 1) :=
    hIpos (n - 1) le_rfl (by omega)
  have hgamma : 0 < fsGamma n Bmag Bp dL twopi :=
    div_pos htwopi hlast
  refine ⟨?_, ?_, ?_⟩
  · simp [fsTheta, fsThetaRaw, cumtrapz]
  · unfold fsTheta fsGamma
    field_simp
  · intro k hk
    exact mul_lt_mul_of_pos_left (hstepI k hk) hgamma

/-- Witness for `C7_amended`: the two-sample surface `R = (0,1)`, `Z = 0`,
`Br = 1`, `Bz = Bphi = 0` (so `dL = (1,1)`, `Bp = Bmag = 1`), with the
`2π` stand-in `7`. -/
theorem C7_amended_witness :
    fsTheta 2 (fun _ => 1) (fun _ => 1) (fun _ => 1) 7 0 = 0 ∧
    fsTheta 2 (fun _ => 1) (fun _ => 1) (fun _ => 1) 7 (2 - 1) = 7 ∧
    fsTheta 2 (fun _ => 1) (fun _ => 1) (fun _ => 1) 7 0 <
      fsTheta 2 (fun _ => 1) (fun _ => 1) (fun _ => 1) 7 1 := by
  have h := C7_amended 2 (fun k => [0, 1].getD k 0) (fun _ => 0)
    (fun _ => 1) (fun _ => 0) (fun _ => 0) (fun _ => 1) (fun _ => 1)
    (fun _ => 1) 7 (by norm_num)
    (by intro k hk; interval_cases k <;> norm_num [npGradient])
    (by intro k hk; norm_num)
    (by intro k hk; norm_num)
    (by intro k h1 hk; norm_num)
    (by norm_num)
  exact ⟨h.1, h.2.1, h.2.2 0 (by norm_num)⟩

/-- The degenerate contour used to refute C7 as stated: three samples with
`R = (0, 1, 0)`, `Z = 0`.  Its central difference at `k = 1` is
`(R 2 - R 0)/2 = 0`, so `dL = (1, 0, 1)` — a zero arc-length step. -/
def cexR7 : ℕ → ℚ := fun k => [0, 1, 0].getD k 0

/-- The arc-length steps `sqrt(dR² + dZ²)` of `cexR7` (with `Z = 0`). -/
def cexdL7 : ℕ → ℚ := fun k => [1, 0, 1].getD k 0

/-- **C7, counterexample.**  The claim as stated — `Bp > 0` at every
sample alone implies `Θ` strictly increasing — is false: on the contour
`R = (0,1,0)`, `Z = 0` with `Br = 1`, `Bz = Bphi = 0` every `Bp` sample is
`1 > 0` and the constraint equations of `dL`, `Bp`, `Bmag` all hold, yet
`Θ 0 = Θ 1 = 0`.  (`Θ` still starts at `0` and ends at the `2π`
stand-in `7`.) -/
theorem C7_counterexample :
    (cexdL7 0 ^ 2 = npGradient cexR7 3 0 ^ 2 + ((0 : ℚ)) ^ 2 ∧
     cexdL7 1 ^ 2 = npGradient cexR7 3 1 ^ 2 + ((0 : ℚ)) ^ 2 ∧
     cexdL7 2 ^ 2 = npGradient cexR7 3 2 ^ 2 + ((0 : ℚ)) ^ 2) ∧
    ((1 : ℚ) ^ 2 = 1 ^ 2 + 0 ^ 2 ∧ (0 : ℚ) < 1) ∧
    fsTheta 3 (fun _ => 1) (fun _ => 1) cexdL7 7 0 = 0 ∧
    fsTheta 3 (fun _ => 1) (fun _ => 1) cexdL7 7 1 = 0 ∧
    fsTheta 3 (fun _ => 1) (fun _ => 1) cexdL7 7 2 = 7 ∧
    ¬ fsTheta 3 (fun _ => 1) (fun _ => 1) cexdL7 7 0 <
        fsTheta 3 (fun _ => 1) (fun _ => 1) cexdL7 7 1 := by
  norm_num [cexR7, cexdL7, npGradient, fsTheta, fsGamma, fsThetaRaw,
    cumtrapz, cumsum]

/-! ## `FluxSurface.flux_surface_average` (fluxsurface.py lines 73-78)

`scipy.integrate.simpson` on a (possibly non-uniform) sample grid: the
composite rule sums, over consecutive pairs of intervals, the integral of
the quadratic interpolant through the three samples.  The embedding
covers grids with an odd number `2m+1` of samples (`m` interval pairs),
which is the only case the claims need. -/

/-- The Simpson contribution of the interval pair starting at sample `i`
(scipy's `_basic_simpson` for non-uniform spacing `h0 = x(i+1)-x(i)`,
`h1 = x(i+2)-x(i+1)`):
`(h0+h1)/6 · (y i·(2 − h1/h0) + y (i+1)·(h0+h1)²/(h0·h1) + y (i+2)·(2 − h0/h1))`. -/
def simpsonPair (y x : ℕ → ℚ) (i : ℕ) : ℚ :=
  (x (i + 2) - x i) / 6 *
    (y i * (2 - (x (i + 2) - x (i + 1)) / (x (i + 1) - x i)) +
     y (i + 1) * (x (i + 2) - x i) ^ 2 /
        ((x (i + 1) - x i) * (x (i + 2) - x (i + 1))) +
     y (i + 2) * (2 - (x (i + 1) - x i) / (x (i + 2) - x (i + 1))))

/-- `scipy.integrate.simpson(y, x)` over `2m+1` samples: the sum of the
`m` pair contributions. -/
def simpsonNU (y x : ℕ → ℚ) : ℕ → ℚ
  | 0 => 0
  | m + 1 => simpsonNU y x m + simpsonPair y x (2 * m)

/-- `flux_surface_average` (lines 73-78): with `integrand = 1/Bp`,
`simpson(integrand * q, lp) / simpson(integrand, lp)`. -/
def fsa (Bp lp : ℕ → ℚ) (m : ℕ) (q : ℕ → ℚ) : ℚ :=
  simpsonNU (fun k => 1 / Bp k * q k) lp m /
    simpsonNU (fun k => 1 / Bp k) lp m

/-- Simpson quadrature is linear in the samples (scaling). -/
theorem simpsonNU_smul (f x : ℕ → ℚ) (c : ℚ) (m : ℕ) :
    simpsonNU (fun k => c * f k) x m = c * simpsonNU f x m := by
  induction m with
  | zero => simp [simpsonNU]
  | succ j ih =>
    rw [simpsonNU, simpsonNU, ih, simpsonPair, simpsonPair]
    ring

/-- **C9, amended.**  Averaging a constant over the contour returns that
constant *provided the Simpson quadrature `S` of `1/Bp` over `lp` is
nonzero*.  Strict positivity of the `Bp` samples alone does not guarantee
`S ≠ 0` (the non-uniform Simpson weights may be negative), and with
`S = 0` the average degenerates to `0/0` — see `C9_counterexample`. -/
theorem C9_amended (m : ℕ) (Bp lp : ℕ → ℚ) (c : ℚ)
    (hBp : ∀ k, k ≤ 2 * m → 0 < Bp k)
    (hS : simpsonNU (fun k => 1 / Bp k) lp m ≠ 0) :
    fsa Bp lp m (fun _ => c) = c := by
  unfold fsa
  have h1 : (fun k => 1 / Bp k * c) = fun k => c * (1 / Bp k) := by
    funext k; ring
  rw [h1, simpsonNU_smul]
  exact mul_div_cancel_right₀ c hS

/-- Witness for `C9_amended`: three uniform samples, `Bp = 1`,
`lp = (0,1,2)`, constant `5`; the `1/Bp` quadrature is `2 ≠ 0` and the
average is `5`. -/
theorem C9_amended_witness :
    fsa (fun _ => 1) (fun k => [0, 1, 2].getD k 0) 1 (fun _ => 5) = 5 :=
  C9_amended 1 (fun _ => 1) (fun k => [0, 1, 2].getD k 0) 5
    (fun k _ => by norm_num)
    (by norm_num [simpsonNU, simpsonPair])

/-- Contour refuting C9 as stated: `R = (1, 0, 3)`, `Z = 0`, giving
`dR = (-1, 1, 3)`, `dL = (1, 1, 3)` and arc length `lp = (1, 2, 5)` —
interval widths `1` and `3`. -/
def cexR9 : ℕ → ℚ := fun k => [1, 0, 3].getD k 0

/-- The arc-length steps of `cexR9` (`Z = 0`). -/
def cexdL9 : ℕ → ℚ := fun k => [1, 1, 3].getD k 0

/-- Strictly positive poloidal-field samples `(1/7, 1, 1)`
(`Br = (1/7, 1, 1)`, `Bz = 0`) chosen so that the non-uniform Simpson
weights `(-1, 16/3, 5/3)·(2/3)` annihilate `1/Bp = (7, 1, 1)`. -/
def cexBp9 : ℕ → ℚ := fun k => [1 / 7, 1, 1].getD k 0

/-- **C9, counterexample.**  The claim as stated is false: on this
surface every `Bp` sample is strictly positive and the geometric
constraint equations hold, yet the Simpson quadrature of `1/Bp` is
exactly `0`, so the flux-surface average of the constant `1` is `0/0`
(`NaN` in the source's float arithmetic, `0` in the `ℚ` embedding) — not
`1`. -/
theorem C9_counterexample :
    (cexdL9 0 ^ 2 = npGradient cexR9 3 0 ^ 2 + ((0 : ℚ)) ^ 2 ∧
     cexdL9 1 ^ 2 = npGradient cexR9 3 1 ^ 2 + ((0 : ℚ)) ^ 2 ∧
     cexdL9 2 ^ 2 = npGradient cexR9 3 2 ^ 2 + ((0 : ℚ)) ^ 2) ∧
    (0 < cexBp9 0 ∧ 0 < cexBp9 1 ∧ 0 < cexBp9 2) ∧
    simpsonNU (fun k => 1 / cexBp9 k) (cumsum cexdL9) 1 = 0 ∧
    fsa cexBp9 (cumsum cexdL9) 1 (fun _ => 1) = 0 ∧
    fsa cexBp9 (cumsum cexdL9) 1 (fun _ => 1) ≠ 1 := by
  norm_num [cexR9, cexdL9, cexBp9, npGradient, fsa, simpsonNU,
    simpsonPair, cumsum]

/-! ## `FluxSurface.trapped_fraction` (fluxsurface.py lines 80-117)

The chain of cached properties `_h`, `_hmean`, `_h2mean`, `_f_tu`,
`_f_tl` and the method `trapped_fraction`.  `shm` stands for the source's
`(1 - hmean) ** 0.5` and `sh k` for the pointwise `(1 - h) ** 0.5`. -/

/-- `Bmag.max()` over samples `0..k`. -/
def fsBmax (Bmag : ℕ → ℚ) : ℕ → ℚ
  | 0 => Bmag 0
  | k + 1 => max (fsBmax Bmag k) (Bmag (k + 1))

/-- `_h = Bmag / Bmax` on a `2m+1`-sample contour. -/
def fsH (Bmag : ℕ → ℚ) (m k : ℕ) : ℚ := Bmag k / fsBmax Bmag (2 * m)

/-- `_hmean = flux_surface_average(_h)`. -/
def fsHmean (Bmag Bp lp : ℕ → ℚ) (m : ℕ) : ℚ :=
  fsa Bp lp m (fsH Bmag m)

/-- `_h2mean = flux_surface_average(_h ** 2)`. -/
def fsH2mean (Bmag Bp lp : ℕ → ℚ) (m : ℕ) : ℚ :=
  fsa Bp lp m (fun k => fsH Bmag m k ^ 2)

/-- `_f_tu` (lines 100-104): the upper trapped-fraction estimate
`1 − h2mean/hmean² · (1 − √(1−hmean)·(1 + hmean/2))`. -/
def fsFtu (Bmag Bp lp : ℕ → ℚ) (m : ℕ) (shm : ℚ) : ℚ :=
  1 - fsH2mean Bmag Bp lp m / fsHmean Bmag Bp lp m ^ 2 *
    (1 - shm * (1 + fsHmean Bmag Bp lp m / 2))

/-- `_f_tl` (lines 106-113): the lower estimate
`1 − h2mean · ⟨h⁻²·(1 − √(1−h))·(1 + h/2)⟩`. -/
def fsFtl (Bmag Bp lp : ℕ → ℚ) (m : ℕ) (sh : ℕ → ℚ) : ℚ :=
  1 - fsH2mean Bmag Bp lp m *
    fsa Bp lp m
      (fun k => (fsH Bmag m k ^ 2)⁻¹ * (1 - sh k) * (1 + fsH Bmag m k / 2))

/-- `trapped_fraction()` (lines 115-117): `0.75·_f_tu + 0.25·_f_tl`. -/
def fsTrappedFraction (Bmag Bp lp : ℕ → ℚ) (m : ℕ) (shm : ℚ)
    (sh : ℕ → ℚ) : ℚ :=
  3 / 4 * fsFtu Bmag Bp lp m shm + 1 / 4 * fsFtl Bmag Bp lp m sh

/-- **C10.**  For every flux surface, `trapped_fraction()` equals
`0.75` times the upper-bound estimate plus `0.25` times the lower-bound
estimate, with the two estimates the Houlberg–Hirshman closed forms in
the flux-surface averages of `h = B/Bmax` and `h²` (the lower bound also
averages the pointwise closed form in `h`).  The hypotheses pin `shm` and
`sh` to the source's square roots `(1−hmean)**0.5` and `(1−h)**0.5`. -/
theorem C10_trapped_fraction (Bmag Bp lp : ℕ → ℚ) (m : ℕ) (shm : ℚ)
    (sh : ℕ → ℚ)
    (hshm : shm ^ 2 = 1 - fsHmean Bmag Bp lp m ∧ 0 ≤ shm)
    (hsh : ∀ k, k ≤ 2 * m → (sh k) ^ 2 = 1 - fsH Bmag m k ∧ 0 ≤ sh k) :
    fsTrappedFraction Bmag Bp lp m shm sh =
      3 / 4 *
        (1 - fsa Bp lp m (fun k => fsH Bmag m k ^ 2) /
            fsa Bp lp m (fsH Bmag m) ^ 2 *
          (1 - shm * (1 + fsa Bp lp m (fsH Bmag m) / 2))) +
      1 / 4 *
        (1 - fsa Bp lp m (fun k => fsH Bmag m k ^ 2) *
          fsa Bp lp m
            (fun k =>
              (fsH Bmag m k ^ 2)⁻¹ * (1 - sh k) * (1 + fsH Bmag m k / 2))) :=
  rfl

/-- Witness for `C10_trapped_fraction`: uniform field `Bmag = 1` on three
samples with `Bp = 1`, `lp = (0,1,2)` — then `h ≡ 1`, `hmean = 1` and
both square roots are `0`. -/
theorem C10_trapped_fraction_witness :
    fsTrappedFraction (fun _ => 1) (fun _ => 1)
        (fun k => [0, 1, 2].getD k 0) 1 0 (fun _ => 0) =
      3 / 4 *
        (1 - fsa (fun _ => 1) (fun k => [0, 1, 2].getD k 0) 1
            (fun k => fsH (fun _ => 1) 1 k ^ 2) /
            fsa (fun _ => 1) (fun k => [0, 1, 2].getD k 0) 1
              (fsH (fun _ => 1) 1) ^ 2 *
          (1 - 0 * (1 + fsa (fun _ => 1) (fun k => [0, 1, 2].getD k 0) 1
              (fsH (fun _ => 1) 1) / 2))) +
      1 / 4 *
        (1 - fsa (fun _ => 1) (fun k => [0, 1, 2].getD k 0) 1
            (fun k => fsH (fun _ => 1) 1 k ^ 2) *
          fsa (fun _ => 1) (fun k => [0, 1, 2].getD k 0) 1
            (fun k =>
              (fsH (fun _ => 1) 1 k ^ 2)⁻¹ * (1 - 0) *
                (1 + fsH (fun _ => 1) 1 k / 2))) :=
  C10_trapped_fraction (fun _ => 1) (fun _ => 1)
    (fun k => [0, 1, 2].getD k 0) 1 0 (fun _ => 0)
    (by constructor
        · norm_num [fsHmean, fsa, fsH, fsBmax, simpsonNU, simpsonPair]
        · norm_num)
    (fun k _ => by norm_num [fsH, fsBmax])

/-! ## `ExtendedParticleList.ξ` (Houlberg1997.py lines 119-131)

A charge state is its parent element (an index; the code uses element
symbols, only their grouping and ordering matter), its charge number and
its density.  `ExtendedParticleList.__init__` (lines 79-85) sorts the
stored list by parent element, so the stored list is a concatenation of
element groups with strictly increasing element keys.  `ξ` then splits
`Z²·n` at the first-occurrence indices returned by `np.unique` on the
element keys (`np.unique` sorts its values; on the already-sorted keys the
first-occurrence indices are the group starts, the first being `0`, so
`np.split` yields a leading empty chunk followed by the groups) and
normalizes each chunk by its own sum. -/

structure ChargeState where
  elem : ℕ
  Zc : ℚ
  n : ℚ

/-- `Z² n` for one charge state. -/
def z2n (s : ChargeState) : ℚ := s.Zc ^ 2 * s.n

/-- `np.unique(l, return_index=True)[1]`: the sorted unique values, each
mapped to the index of its first occurrence in `l`. -/
def npUniqueFirstIdx (l : List ℕ) : List ℕ :=
  ((l.insertionSort (· ≤ ·)).dedup).map (fun v => l.indexOf v)

/-- `np.split(l, idxs)`: the pieces `l[:i₀], l[i₀:i₁], ..., l[i_last:]`. -/
def npSplit {α : Type} : List α → List ℕ → List (List α)
  | l, [] => [l]
  | l, i :: is => l.take i :: npSplit (l.drop i) (is.map (· - i))
termination_by _ is => is.length
decreasing_by simp only [List.length_map, List.length_cons]; omega

theorem npSplit_nil {α : Type} (l : List α) : npSplit l [] = [l] := by
  simp [npSplit]

theorem npSplit_cons {α : Type} (l : List α) (i : ℕ) (is : List ℕ) :
    npSplit l (i :: is) =
      l.take i :: npSplit (l.drop i) (is.map (· - i)) := by
  simp [npSplit]

/-- `array / array.sum()` for one chunk. -/
def normalizeQ (c : List ℚ) : List ℚ := c.map (· / c.sum)

/-- The chunks of `ξ` before concatenation (lines 124-130). -/
def ξchunks (states : List ChargeState) : List (List ℚ) :=
  (npSplit (states.map z2n)
      (npUniqueFirstIdx (states.map (fun s => s.elem)))).map normalizeQ

/-- `ξ` itself: `np.concatenate(outputs)` (line 131). -/
def ξ_source (states : List ChargeState) : List ℚ :=
  (ξchunks states).flatten

/-- One element group: the parent-element key and the `(Z, n)` pairs of
its charge states. -/
structure ElemGroup where
  elem : ℕ
  states : List (ℚ × ℚ)

/-- The charge states of one group. -/
def groupStates (g : ElemGroup) : List ChargeState :=
  g.states.map (fun p => ⟨g.elem, p.1, p.2⟩)

/-- A full (element-sorted) `ExtendedParticleList` presented as its
concatenated element groups. -/
def eplOfGroups (gs : List ElemGroup) : List ChargeState :=
  gs.flatMap groupStates

/-- The `Z² n` list of one group. -/
def groupZ2n (g : ElemGroup) : List ℚ :=
  g.states.map (fun p => p.1 ^ 2 * p.2)

theorem eplOfGroups_cons (g : ElemGroup) (gs : List ElemGroup) :
    eplOfGroups (g :: gs) = groupStates g ++ eplOfGroups gs := by
  simp [eplOfGroups]

theorem elems_groupStates (g : ElemGroup) :
    (groupStates g).map (fun s => s.elem) =
      List.replicate g.states.length g.elem := by
  unfold groupStates
  rw [List.map_map]
  have : ((fun s : ChargeState => s.elem) ∘
      (fun p : ℚ × ℚ => ChargeState.mk g.elem p.1 p.2)) =
      fun _ => g.elem := rfl
  rw [this, List.map_const']

theorem z2n_groupStates (g : ElemGroup) :
    (groupStates g).map z2n = groupZ2n g := by
  simp [groupStates, groupZ2n, z2n]

/-- Element keys of a group list with pairwise-increasing keys are
`≤`-sorted. -/
theorem elems_sorted (gs : List ElemGroup)
    (hmono : (gs.map (fun g => g.elem)).Pairwise (· < ·)) :
    ((eplOfGroups gs).map (fun s => s.elem)).Sorted (· ≤ ·) := by
  induction gs with
  | nil => simp [eplOfGroups]
  | cons g rest ih =>
    rw [eplOfGroups_cons, List.map_append, elems_groupStates]
    rw [List.map_cons, List.pairwise_cons] at hmono
    refine List.pairwise_append.2 ⟨?_, ih hmono.2, ?_⟩
    · exact List.pairwise_replicate.2 (Or.inr le_rfl)
    · intro a ha b hb
      rw [List.eq_of_mem_replicate ha]
      obtain ⟨s, hs, rfl⟩ := List.mem_map.1 hb
      obtain ⟨grp, hgrp, hsg⟩ := List.mem_flatMap.1 hs
      have : s.elem = grp.elem := by
        obtain ⟨p, _, rfl⟩ := List.mem_map.1 hsg
        rfl
      rw [this]
      exact le_of_lt (hmono.1 grp.elem (List.mem_map.2 ⟨grp, hgrp, rfl⟩))

/-- The head group's key does not occur among the later groups' keys. -/
theorem elem_not_mem_later (g : ElemGroup) (rest : List ElemGroup)
    (hmono : ((g :: rest).map (fun x => x.elem)).Pairwise (· < ·)) :
    g.elem ∉ (eplOfGroups rest).map (fun s => s.elem) := by
  rw [List.map_cons, List.pairwise_cons] at hmono
  intro hmem
  obtain ⟨s, hs, hse⟩ := List.mem_map.1 hmem
  obtain ⟨grp, hgrp, hsg⟩ := List.mem_flatMap.1 hs
  have : s.elem = grp.elem := by
    obtain ⟨p, _, rfl⟩ := List.mem_map.1 hsg
    rfl
  have hlt := hmono.1 grp.elem (List.mem_map.2 ⟨grp, hgrp, rfl⟩)
  omega

theorem dedup_replicate_append {e : ℕ} {tail : List ℕ} (L : ℕ)
    (hL : 1 ≤ L) (he : e ∉ tail) :
    (List.replicate L e ++ tail).dedup = e :: tail.dedup := by
  induction L with
  | zero => omega
  | succ m ih =>
    rcases Nat.eq_zero_or_pos m with hm | hm
    · subst hm
      simpa using List.dedup_cons_of_not_mem he
    · have hmem : e ∈ List.replicate m e ++ tail := by
        simp [List.mem_replicate]; omega
      calc (List.replicate (m + 1) e ++ tail).dedup
          = (e :: (List.replicate m e ++ tail)).dedup := by
            simp [List.replicate_succ]
        _ = (List.replicate m e ++ tail).dedup :=
            List.dedup_cons_of_mem hmem
        _ = e :: tail.dedup := ih hm

/-- The `np.unique` first-occurrence indices of a sorted group list:
`0` for the head group, then the later groups' indices shifted by the
head group's length. -/
theorem npUniqueFirstIdx_cons (g : ElemGroup) (rest : List ElemGroup)
    (hmono : ((g :: rest).map (fun x => x.elem)).Pairwise (· < ·))
    (hne : g.states ≠ []) :
    npUniqueFirstIdx ((eplOfGroups (g :: rest)).map (fun s => s.elem)) =
      0 :: (npUniqueFirstIdx
          ((eplOfGroups rest).map (fun s => s.elem))).map
        (fun i => g.states.length + i) := by
  set tail := (eplOfGroups rest).map (fun s => s.elem) with htail
  have hL : 1 ≤ g.states.length := by
    cases h : g.states with
    | nil => exact absurd h hne
    | cons a l => simp [h]
  have hfull : (eplOfGroups (g :: rest)).map (fun s => s.elem) =
      List.replicate g.states.length g.elem ++ tail := by
    rw [eplOfGroups_cons, List.map_append, elems_groupStates]
  have hsorted := elems_sorted (g :: rest) hmono
  rw [hfull] at hsorted ⊢
  have hnotmem : g.elem ∉ tail := elem_not_mem_later g rest hmono
  have hsorted_tail : tail.Sorted (· ≤ ·) :=
    (List.pairwise_append.1 hsorted).2.1
  unfold npUniqueFirstIdx
  rw [List.Sorted.insertionSort_eq hsorted,
    List.Sorted.insertionSort_eq hsorted_tail,
    dedup_replicate_append g.states.length hL hnotmem]
  rw [List.map_cons]
  have hidx0 : (List.replicate g.states.length g.elem ++ tail).indexOf
      g.elem = 0 := by
    obtain ⟨m, hm⟩ : ∃ m, g.states.length = m + 1 :=
      ⟨g.states.length - 1, by omega⟩
    rw [hm, List.replicate_succ, List.cons_append, List.indexOf_cons_self]
  rw [hidx0]
  congr 1
  rw [List.map_map]
  apply List.map_congr_left
  intro v hv
  have hvtail : v ∈ tail := List.mem_dedup.1 hv
  have hvne : v ∉ List.replicate g.states.length g.elem := by
    intro hmem
    exact hnotmem ((List.eq_of_mem_replicate hmem) ▸ hvtail)
  simp only [Function.comp_apply]
  rw [List.indexOf_append_of_not_mem hvne, List.length_replicate]

/-- The raw (pre-normalization) `np.split` chunks of a sorted group list:
a leading empty chunk, then exactly the groups' `Z²n` lists. -/
theorem npSplit_groups (gs : List ElemGroup)
    (hmono : (gs.map (fun g => g.elem)).Pairwise (· < ·))
    (hne : ∀ g ∈ gs, g.states ≠ []) :
    npSplit ((eplOfGroups gs).map z2n)
        (npUniqueFirstIdx ((eplOfGroups gs).map (fun s => s.elem))) =
      [] :: gs.map groupZ2n := by
  induction gs with
  | nil => simp [eplOfGroups, npUniqueFirstIdx, npSplit_nil]
  | cons g rest ih =>
    have hmono' : (rest.map (fun x => x.elem)).Pairwise (· < ·) := by
      rw [List.map_cons, List.pairwise_cons] at hmono
      exact hmono.2
    have hne' : ∀ x ∈ rest, x.states ≠ [] :=
      fun x hx => hne x (List.mem_cons_of_mem g hx)
    have hz : (eplOfGroups (g :: rest)).map z2n =
        groupZ2n g ++ (eplOfGroups rest).map z2n := by
      rw [eplOfGroups_cons, List.map_append, z2n_groupStates]
    rw [npUniqueFirstIdx_cons g rest hmono
      (hne g (List.mem_cons_self g rest)), hz]
    have hlen : (groupZ2n g).length = g.states.length := by
      simp [groupZ2n]
    rw [npSplit_cons]
    simp only [List.take_zero, List.drop_zero, List.map_map,
      Function.comp, Nat.sub_zero]
    cases rest with
    | nil =>
      have h0 : npUniqueFirstIdx ((eplOfGroups ([] : List ElemGroup)).map
          (fun s => s.elem)) = [] := rfl
      rw [h0]
      simp [npSplit_nil, eplOfGroups]
    | cons h2 t2 =>
      have hidx2 := npUniqueFirstIdx_cons h2 t2 hmono'
        (hne' h2 (List.mem_cons_self h2 t2))
      rw [hidx2]
      simp only [List.map_cons, List.map_map, Nat.add_zero, Function.comp]
      rw [npSplit_cons]
      have htake : (groupZ2n g ++
          (eplOfGroups (h2 :: t2)).map z2n).take g.states.length =
          groupZ2n g := by
        rw [← hlen]; exact List.take_left _ _
      have hdrop : (groupZ2n g ++
          (eplOfGroups (h2 :: t2)).map z2n).drop g.states.length =
          (eplOfGroups (h2 :: t2)).map z2n := by
        rw [← hlen]; exact List.drop_left _ _
      rw [htake, hdrop, List.map_map]
      have ihr := ih hmono' hne'
      rw [hidx2, npSplit_cons] at ihr
      simp only [List.take_zero, List.drop_zero, List.map_map,
        Function.comp, Nat.sub_zero, List.cons.injEq, List.map_cons,
        true_and] at ihr
      simp only [List.map_cons, List.cons.injEq, true_and]
      convert ihr using 3
      funext v
      simp only [Function.comp_apply]
      omega

theorem sum_map_div (c : List ℚ) (s : ℚ) :
    (c.map (fun x => x / s)).sum = c.sum / s := by
  induction c with
  | nil => simp
  | cons a t ih => simp [ih, add_div]

/-- A chunk normalized by its own (nonzero) sum sums to `1`. -/
theorem normalizeQ_sum (c : List ℚ) (h : c.sum ≠ 0) :
    (normalizeQ c).sum = 1 := by
  unfold normalizeQ
  rw [sum_map_div, div_self h]

/-- **C6.**  For every `ExtendedParticleList` — presented as its
element-sorted group decomposition, which is exactly what the constructor
guarantees — whose parent-element groups each have positive total `Z²n`:
the chunks produced by `ξ` are the element groups themselves, each
normalized by *its own group's* `Z²n` total (the leading `[]` is
`np.split`'s empty piece before index `0`; `np.concatenate` discards it),
and consequently the `ξ` values sum to exactly `1` within each element
group, regardless of the other elements present. -/
theorem C6_xi_per_element (gs : List ElemGroup)
    (hmono : (gs.map (fun g => g.elem)).Pairwise (· < ·))
    (hne : ∀ g ∈ gs, g.states ≠ [])
    (hpos : ∀ g ∈ gs, 0 < (groupZ2n g).sum) :
    ξchunks (eplOfGroups gs) =
      [] :: gs.map (fun g => normalizeQ (groupZ2n g)) ∧
    ∀ g ∈ gs, (normalizeQ (groupZ2n g)).sum = 1 := by
  constructor
  · unfold ξchunks
    rw [npSplit_groups gs hmono hne]
    simp [normalizeQ, List.map_map, Function.comp]
  · intro g hg
    exact normalizeQ_sum _ (ne_of_gt (hpos g hg))

/-- Hydrogen-like group for the `C6` witness: charge states `Z = 0` at
density `2` and `Z = 1` at density `3`. -/
def wG1 : ElemGroup := ⟨0, [(0, 2), (1, 3)]⟩

/-- Second element for the `C6` witness: a single `Z = 1` state. -/
def wG2 : ElemGroup := ⟨1, [(1, 1)]⟩

/-- Witness for `C6_xi_per_element` on the two-element list
`[wG1, wG2]`. -/
theorem C6_xi_witness :
    ξchunks (eplOfGroups [wG1, wG2]) =
      [] :: [wG1, wG2].map (fun g => normalizeQ (groupZ2n g)) ∧
    (normalizeQ (groupZ2n wG1)).sum = 1 := by
  have h := C6_xi_per_element [wG1, wG2]
    (by norm_num [wG1, wG2, List.pairwise_cons])
    (by intro g hg; fin_cases hg <;> simp [wG1, wG2])
    (by intro g hg; fin_cases hg <;> norm_num [wG1, wG2, groupZ2n])
  exact ⟨h.1, h.2 wG1 (List.mem_cons_self _ _)⟩

/-! ## Zero-density charge states and NaN propagation
(`pitch_angle_diffusion_rate`, Houlberg1997.py lines 238-266, and
`K_B_ai`, lines 269-301)

IEEE arithmetic is modelled symbolically: a value is either a finite
rational (`some q`) or a non-finite float (`none`, covering NaN and ±inf,
which is all the claim distinguishes).  Division by zero never yields a
finite value (`0/0` is NaN, `x/0` is ±inf), and every operation
propagates non-finiteness.  Within this model, finite-by-finite
operations agree with exact arithmetic, so a `some` result is a faithful
finiteness certificate and a `none` result a faithful non-finiteness
certificate. -/

/-- A double: a finite rational or a non-finite value (NaN/±inf). -/
abbrev Flt := Option ℚ

def fMul : Flt → Flt → Flt
  | some a, some b => some (a * b)
  | _, _ => none

def fDiv : Flt → Flt → Flt
  | some a, some b => if b = 0 then none else some (a / b)
  | _, _ => none

def fIsFinite : Flt → Bool
  | some _ => true
  | none => false

/-- One entry of `pitch_angle_diffusion_rate` (lines 260-265):
`ξ / mass_density * (3√π/4) * sum_items`, for one charge state and one
velocity-grid point.  `cst` stands for the constant `3√π/4` and
`sumItems` for that state's collision sum (line 258). -/
def padrFlt (xi ρ cst sumItems : Flt) : Flt :=
  fMul (fMul (fDiv xi ρ) cst) sumItems

/-- One entry of `K_B_ai` (lines 291-301): with `orbit_squeezing=False`,
`S_ai = 1` and the result is
`pitch_angle_diffusion_rate * f_t / f_c / S_ai ** 1.5`. -/
def kBaiFlt (padr ft fc : Flt) : Flt :=
  fDiv (fDiv (fMul padr ft) fc) (some 1)

/-- **C4, counterexample.**  The concrete scenario of the claim — one
hydrogen-like element with charge states `Z = 0` at density `0` and
`Z = 1` at density `n₀ = 1` — does *not* give an all-finite `K_B_ai`:
the code's `ξ` for the zero-density state is `0` and its mass density is
`0·m = 0`, and `pitch_angle_diffusion_rate` divides `ξ` by
`mass_density` with no mask, so the zero-density state's entries are
`0/0 = NaN` and stay NaN through `K_B_ai` (here with the stand-in
constant `1`, collision sum `1`, trapped fraction `f_t = 1/4`,
`f_c = 3/4`). -/
theorem C4_counterexample :
    ξ_source (eplOfGroups [⟨0, [(0, 0), (1, 1)]⟩]) = [0, 1] ∧
    fDiv (some 0) (some 0) = none ∧
    padrFlt (some 0) (some ((0 : ℚ) * 1)) (some 1) (some 1) = none ∧
    fIsFinite (kBaiFlt (padrFlt (some 0) (some ((0 : ℚ) * 1)) (some 1)
      (some 1)) (some (1 / 4)) (some (3 / 4))) = false := by
  refine ⟨?_, rfl, ?_, ?_⟩
  · unfold ξ_source ξchunks eplOfGroups groupStates
    simp only [List.flatMap_cons, List.flatMap_nil, List.map_cons,
      List.map_nil, List.append_nil]
    rw [show npUniqueFirstIdx [0, 0] = [0] from rfl]
    rw [npSplit_cons]
    simp only [List.map_nil, List.take_zero, List.drop_zero]
    rw [npSplit_nil]
    norm_num [normalizeQ, z2n]
  · simp [padrFlt, fDiv, fMul]
  · simp [kBaiFlt, padrFlt, fDiv, fMul, fIsFinite]

/-- **C4, amended.**  What does hold in the scenario: the code assigns
the zero-density state the weight `ξ = 0` and the positive-density state
`ξ = 1`; the *positive-density* state's `K_B_ai` entries are finite
(provided its collision sum, the `3√π/4` constant, and the trapped/
circulating fractions are finite, with `f_c ≠ 0` and `n₀·m ≠ 0`), while
the *zero-density* state's entries are NaN — the division `ξ/mass_density`
is unmasked, and the code's strategy is to filter non-finite values only
later (flows.py line 218), not to keep these functions NaN-free. -/
theorem C4_amended (n₀ m₀ cst s1 ft fc : ℚ)
    (hn : n₀ ≠ 0) (hm : m₀ ≠ 0) (hfc : fc ≠ 0) :
    ξ_source (eplOfGroups [⟨0, [(0, 0), (1, n₀)]⟩]) = [0, 1] ∧
    fIsFinite (kBaiFlt (padrFlt (some 0) (some ((0 : ℚ) * m₀)) (some cst)
      (some 1)) (some ft) (some fc)) = false ∧
    fIsFinite (kBaiFlt (padrFlt (some 1) (some (n₀ * m₀)) (some cst)
      (some s1)) (some ft) (some fc)) = true := by
  refine ⟨?_, ?_, ?_⟩
  · unfold ξ_source ξchunks eplOfGroups groupStates
    simp only [List.flatMap_cons, List.flatMap_nil, List.map_cons,
      List.map_nil, List.append_nil]
    rw [show npUniqueFirstIdx [0, 0] = [0] from rfl]
    rw [npSplit_cons]
    simp only [List.map_nil, List.take_zero, List.drop_zero]
    rw [npSplit_nil]
    simp only [List.take_zero, List.drop_zero, List.map_nil,
      List.map_cons, normalizeQ, z2n]
    norm_num [hn]
  · simp [kBaiFlt, padrFlt, fDiv, fMul, fIsFinite]
  · have hnm : n₀ * m₀ ≠ 0 := mul_ne_zero hn hm
    simp [kBaiFlt, padrFlt, fDiv, fMul, fIsFinite, hnm, hfc]

/-- Witness for `C4_amended` at `n₀ = 1`, `m₀ = 1`, constant `1`,
collision sum `1`, `f_t = 1/4`, `f_c = 3/4`. -/
theorem C4_amended_witness :
    ξ_source (eplOfGroups [⟨0, [(0, 0), (1, 1)]⟩]) = [0, 1] ∧
    fIsFinite (kBaiFlt (padrFlt (some 0) (some ((0 : ℚ) * 1)) (some 1)
      (some 1)) (some (1 / 4)) (some (3 / 4))) = false ∧
    fIsFinite (kBaiFlt (padrFlt (some 1) (some ((1 : ℚ) * 1)) (some 1)
      (some 1)) (some (1 / 4)) (some (3 / 4))) = true :=
  C4_amended 1 1 1 1 (1 / 4) (3 / 4) (by norm_num) (by norm_num)
    (by norm_num)

/-! ## `FlowCalculator` (flows.py lines 89-342): zero gradients give zero
fluxes

The numerical data flow of `__init__` and of the flux properties, for a
configuration of `K` species blocks with `ns a` charge states each.  The
gradient-independent inputs — `ξ`, `μ̂`, `M_script`, `N_script`, the
per-state temperatures, densities and charges, and the flux-surface
scalars `Fhat`, `⟨B²⟩`, `⟨B⁻²⟩`, `⟨|∇ρ|²/B²⟩` — are the fields of the
configuration (they are computed by the code before the gradients enter
the pipeline, so for this claim they are free parameters); the density
and temperature gradients `dn`, `dT` are the inputs the claim quantifies
over.  `np.linalg.solve` is embedded by Cramer's rule scaled by the
inverse determinant (identical to the unique solution when the
determinant is nonzero; the theorems carry the nonzero-determinant
hypotheses under which `np.linalg.solve` succeeds). -/

structure FlowConfig where
  K : ℕ
  ns : Fin K → ℕ
  xi : (a : Fin K) → Fin (ns a) → ℚ
  mu : (a : Fin K) → Fin (ns a) → Matrix (Fin 3) (Fin 3) ℚ
  Msc : Fin K → Matrix (Fin 3) (Fin 3) ℚ
  Nsc : Fin K → Fin K → Matrix (Fin 3) (Fin 3) ℚ
  T : (a : Fin K) → Fin (ns a) → ℚ
  n : (a : Fin K) → Fin (ns a) → ℚ
  charge : (a : Fin K) → Fin (ns a) → ℚ
  Fhat : ℚ
  B2fsav : ℚ
  Binv2fsav : ℚ
  FSAcl : ℚ
  kB : ℚ

/-- Per-state gradient arrays. -/
def FlowGrad (cfg : FlowConfig) := (a : Fin cfg.K) → Fin (cfg.ns a) → ℚ

/-- `pressure_gradient_over_n_i = k_B * (T_i * density_gradient / n_i +
temperature_gradient)` (flows.py lines 142-144).  The `isinf` patch of
line 146 is a no-op when `n_i ≠ 0`, the case the theorems assume. -/
def pgradOverN (cfg : FlowConfig) (dn dT : FlowGrad cfg) (a : Fin cfg.K)
    (i : Fin (cfg.ns a)) : ℚ :=
  cfg.kB * (cfg.T a i * dn a i / cfg.n a i + dT a i)

/-- The thermodynamic force `S_θ` (lines 151-161):
`Fhat / charge * (pressure term, k_B·∇T, 0)`. -/
def forces (cfg : FlowConfig) (dn dT : FlowGrad cfg) (a : Fin cfg.K)
    (i : Fin (cfg.ns a)) : Fin 3 → ℚ :=
  fun β =>
    cfg.Fhat / cfg.charge a i *
      (if β = 0 then pgradOverN cfg dn dT a i
       else if β = 1 then cfg.kB * dT a i else 0)

/-- `S_pt = (thermodynamic_forces[:, None, :] * μ).sum(axis=2)`
(lines 164-166). -/
def Spt (cfg : FlowConfig) (dn dT : FlowGrad cfg) (a : Fin cfg.K)
    (i : Fin (cfg.ns a)) : Fin 3 → ℚ :=
  fun α => ∑ β, forces cfg dn dT a i β * cfg.mu a i α β

/-- `Aai = ξ·M_script − μ` (line 149). -/
def AaiM (cfg : FlowConfig) (a : Fin cfg.K) (i : Fin (cfg.ns a)) :
    Matrix (Fin 3) (Fin 3) ℚ :=
  cfg.xi a i • cfg.Msc a - cfg.mu a i

/-- `np.linalg.solve` for one 3×3 system, by Cramer's rule. -/
def solve3 (A : Matrix (Fin 3) (Fin 3) ℚ) (b : Fin 3 → ℚ) : Fin 3 → ℚ :=
  (A.det)⁻¹ • A.cramer b

/-- `r_pt = np.linalg.solve(Aai, S_pt)` (line 168); `r_sources = r_pt + 0`
(line 170). -/
def rpt (cfg : FlowConfig) (dn dT : FlowGrad cfg) (a : Fin cfg.K)
    (i : Fin (cfg.ns a)) : Fin 3 → ℚ :=
  solve3 (AaiM cfg a i) (Spt cfg dn dT a i)

/-- `rbar_sources = (ξ[:, None] * r_sources).nansum(axis=0)`
(lines 172-174). -/
def rbarSources (cfg : FlowConfig) (dn dT : FlowGrad cfg)
    (a : Fin cfg.K) : Fin 3 → ℚ :=
  ∑ i, cfg.xi a i • rpt cfg dn dT a i

/-- `r_flows = np.linalg.solve(Aai, ξ·I₃)` (lines 176-177), column by
column. -/
def rflows (cfg : FlowConfig) (a : Fin cfg.K) (i : Fin (cfg.ns a)) :
    Matrix (Fin 3) (Fin 3) ℚ :=
  Matrix.of fun α β =>
    solve3 (AaiM cfg a i)
      (fun r => cfg.xi a i * (if r = β then 1 else 0)) α

/-- `rbar_flows = (ξ[:, None, None] * r_flows).nansum(axis=0)`
(lines 179-181). -/
def rbarFlows (cfg : FlowConfig) (a : Fin cfg.K) :
    Matrix (Fin 3) (Fin 3) ℚ :=
  ∑ i, cfg.xi a i • rflows cfg a i

/-- `narray = N_script(a, b).sum(axis=0, keepdims=True)` (line 196). -/
def narray (cfg : FlowConfig) (a b : Fin cfg.K) : Fin 3 → ℚ :=
  fun β => ∑ γ, cfg.Nsc a b γ β

/-- The global block matrix (lines 192-198): the identity plus, in block
`(i, j)`, `narray * rarray.T` (elementwise with broadcasting:
entry `(α,β)` is `narray[β] · rbar_flows_i[β, α]`). -/
def lhsBig (cfg : FlowConfig) :
    Matrix (Fin cfg.K × Fin 3) (Fin cfg.K × Fin 3) ℚ :=
  Matrix.of fun p q =>
    (if p = q then 1 else 0) +
      narray cfg p.1 q.1 q.2 * rbarFlows cfg p.1 q.2 p.2

/-- `ubar = np.linalg.solve(lhs, rhs.ravel())` (lines 199-200): Cramer's
rule on the `3K × 3K` system with the stacked `rbar_sources`. -/
def ubarSol (cfg : FlowConfig) (dn dT : FlowGrad cfg) :
    (Fin cfg.K × Fin 3) → ℚ :=
  ((lhsBig cfg).det)⁻¹ •
    (lhsBig cfg).cramer (fun p => rbarSources cfg dn dT p.1 p.2)

/-- `Λ = -sum over b of (N_script(a,b) * ubar_b).sum(axis=1)`
(lines 207-212). -/
def lamVec (cfg : FlowConfig) (dn dT : FlowGrad cfg) (a : Fin cfg.K) :
    Fin 3 → ℚ :=
  fun α => -∑ b, ∑ β, cfg.Nsc a b α β * ubarSol cfg dn dT (b, β)

/-- `u = np.sum(Λ[None, :, None] * r_flows, axis=2) + r_sources`
(lines 214-215). -/
def uVel (cfg : FlowConfig) (dn dT : FlowGrad cfg) (a : Fin cfg.K)
    (i : Fin (cfg.ns a)) : Fin 3 → ℚ :=
  fun α =>
    lamVec cfg dn dT a α * (∑ β, rflows cfg a i α β) +
      rpt cfg dn dT a i α

/-- `u_θ = (charge-state flow + thermodynamic force) / ⟨B²⟩`
(lines 272-274). -/
def uTheta (cfg : FlowConfig) (dn dT : FlowGrad cfg) (a : Fin cfg.K)
    (i : Fin (cfg.ns a)) : Fin 3 → ℚ :=
  fun α =>
    (uVel cfg dn dT a i α + forces cfg dn dT a i α) / cfg.B2fsav

/-- `Γ_BP = -(Fhat / charge * (μ[0, :] * u_θ).sum())` (line 276). -/
def fluxBPparticle (cfg : FlowConfig) (dn dT : FlowGrad cfg)
    (a : Fin cfg.K) (i : Fin (cfg.ns a)) : ℚ :=
  -(cfg.Fhat / cfg.charge a i *
    ∑ α, cfg.mu a i 0 α * uTheta cfg dn dT a i α)

/-- `q_BP = -(Fhat · k_B · T / charge * (μ[1, :] * u_θ).sum())`
(lines 277-283; the source broadcasts the species array `a.T` here, which
does not affect the zero-gradient property). -/
def fluxBPheat (cfg : FlowConfig) (dn dT : FlowGrad cfg)
    (a : Fin cfg.K) (i : Fin (cfg.ns a)) : ℚ :=
  -(cfg.Fhat * cfg.kB * cfg.T a i / cfg.charge a i *
    ∑ α, cfg.mu a i 1 α * uTheta cfg dn dT a i α)

/-- `_funnymatrix` (lines 242-254): per state,
`(forces_ai * M_script).sum(axis=1) + Σ_b Σ_j ξ_bj (N_script(a,b) *
forces_bj).sum(axis=1)`. -/
def funnyOut (cfg : FlowConfig) (dn dT : FlowGrad cfg) (a : Fin cfg.K)
    (i : Fin (cfg.ns a)) : Fin 3 → ℚ :=
  fun α =>
    (∑ β, cfg.Msc a α β * forces cfg dn dT a i β) +
      ∑ b, ∑ j, cfg.xi b j *
        ∑ β, cfg.Nsc a b α β * forces cfg dn dT b j β

/-- The Pfirsch-Schlüter prefactor (lines 300-302):
`-Fhat / charge * ξ / ⟨B²⟩ * (1 − ⟨B²⟩·⟨B⁻²⟩)`. -/
def prefPS (cfg : FlowConfig) (a : Fin cfg.K) (i : Fin (cfg.ns a)) : ℚ :=
  -cfg.Fhat / cfg.charge a i * cfg.xi a i / cfg.B2fsav *
    (1 - cfg.B2fsav * cfg.Binv2fsav)

/-- `Γ_PS` (line 303). -/
def fluxPSparticle (cfg : FlowConfig) (dn dT : FlowGrad cfg)
    (a : Fin cfg.K) (i : Fin (cfg.ns a)) : ℚ :=
  prefPS cfg a i * funnyOut cfg dn dT a i 0

/-- `q_PS` (lines 304-306). -/
def fluxPSheat (cfg : FlowConfig) (dn dT : FlowGrad cfg)
    (a : Fin cfg.K) (i : Fin (cfg.ns a)) : ℚ :=
  prefPS cfg a i * cfg.kB * cfg.T a i * funnyOut cfg dn dT a i 1

/-- The classical prefactor (line 324): `⟨|∇ρ|²/B²⟩ / Fhat * ξ / charge`. -/
def prefCL (cfg : FlowConfig) (a : Fin cfg.K) (i : Fin (cfg.ns a)) : ℚ :=
  cfg.FSAcl / cfg.Fhat * cfg.xi a i / cfg.charge a i

/-- `Γ_CL` (line 325). -/
def fluxCLparticle (cfg : FlowConfig) (dn dT : FlowGrad cfg)
    (a : Fin cfg.K) (i : Fin (cfg.ns a)) : ℚ :=
  prefCL cfg a i * funnyOut cfg dn dT a i 0

/-- `q_CL` (line 326). -/
def fluxCLheat (cfg : FlowConfig) (dn dT : FlowGrad cfg)
    (a : Fin cfg.K) (i : Fin (cfg.ns a)) : ℚ :=
  prefCL cfg a i * cfg.kB * cfg.T a i * funnyOut cfg dn dT a i 1

/-- `fluxes` (lines 332-342): per charge state, the BP + PS + CL sums. -/
def particleFlux (cfg : FlowConfig) (dn dT : FlowGrad cfg)
    (a : Fin cfg.K) (i : Fin (cfg.ns a)) : ℚ :=
  fluxBPparticle cfg dn dT a i + fluxPSparticle cfg dn dT a i +
    fluxCLparticle cfg dn dT a i

def heatFlux (cfg : FlowConfig) (dn dT : FlowGrad cfg)
    (a : Fin cfg.K) (i : Fin (cfg.ns a)) : ℚ :=
  fluxBPheat cfg dn dT a i + fluxPSheat cfg dn dT a i +
    fluxCLheat cfg dn dT a i

/-- The all-zero gradient arrays (the constructor's default when a
species has no gradient entry, lines 136-141). -/
def zeroGrad (cfg : FlowConfig) : FlowGrad cfg := fun _ _ => 0

/-- **C5.**  If every per-charge-state density gradient and temperature
gradient is zero, then every per-charge-state particle flux and heat flux
produced by `FlowCalculator.fluxes` is zero.  The hypotheses are the
conditions under which the float pipeline runs without non-finite values:
nonzero densities and charges, and nonsingular per-state and global
matrices (so each `np.linalg.solve` succeeds).  (This verifies the
numerical data flow as written; actually executing it is blocked by the
unbound names of C1.) -/
theorem C5_zero_gradient_zero_flux (cfg : FlowConfig)
    (hn : ∀ (a : Fin cfg.K) (i : Fin (cfg.ns a)), cfg.n a i ≠ 0)
    (hq : ∀ (a : Fin cfg.K) (i : Fin (cfg.ns a)), cfg.charge a i ≠ 0)
    (hdet : ∀ (a : Fin cfg.K) (i : Fin (cfg.ns a)),
      (AaiM cfg a i).det ≠ 0)
    (hdetL : (lhsBig cfg).det ≠ 0) :
    ∀ (a : Fin cfg.K) (i : Fin (cfg.ns a)),
      particleFlux cfg (zeroGrad cfg) (zeroGrad cfg) a i = 0 ∧
      heatFlux cfg (zeroGrad cfg) (zeroGrad cfg) a i = 0 := by
  intro a i
  have hforces : ∀ (b : Fin cfg.K) (j : Fin (cfg.ns b)) (β : Fin 3),
      forces cfg (zeroGrad cfg) (zeroGrad cfg) b j β = 0 := by
    intro b j β
    unfold forces pgradOverN zeroGrad
    simp
  have hrpt : ∀ (b : Fin cfg.K) (j : Fin (cfg.ns b)) (β : Fin 3),
      rpt cfg (zeroGrad cfg) (zeroGrad cfg) b j β = 0 := by
    intro b j β
    unfold rpt solve3
    have h0 : Spt cfg (zeroGrad cfg) (zeroGrad cfg) b j =
        (0 : Fin 3 → ℚ) := by
      funext α
      simp [Spt, hforces]
    rw [h0, map_zero]
    simp
  have hubar : ∀ p : Fin cfg.K × Fin 3,
      ubarSol cfg (zeroGrad cfg) (zeroGrad cfg) p = 0 := by
    intro p
    unfold ubarSol
    have h0 : (fun q : Fin cfg.K × Fin 3 =>
        rbarSources cfg (zeroGrad cfg) (zeroGrad cfg) q.1 q.2) =
        (0 : (Fin cfg.K × Fin 3) → ℚ) := by
      funext q
      simp [rbarSources, Finset.sum_apply, Pi.smul_apply, hrpt]
    rw [h0, map_zero]
    simp
  have hlam : ∀ (b : Fin cfg.K) (α : Fin 3),
      lamVec cfg (zeroGrad cfg) (zeroGrad cfg) b α = 0 := by
    intro b α
    simp [lamVec, hubar]
  have huvel : ∀ (b : Fin cfg.K) (j : Fin (cfg.ns b)) (α : Fin 3),
      uVel cfg (zeroGrad cfg) (zeroGrad cfg) b j α = 0 := by
    intro b j α
    simp [uVel, hlam, hrpt]
  have hutheta : ∀ (b : Fin cfg.K) (j : Fin (cfg.ns b)) (α : Fin 3),
      uTheta cfg (zeroGrad cfg) (zeroGrad cfg) b j α = 0 := by
    intro b j α
    simp [uTheta, huvel, hforces]
  have hfunny : ∀ (b : Fin cfg.K) (j : Fin (cfg.ns b)) (α : Fin 3),
      funnyOut cfg (zeroGrad cfg) (zeroGrad cfg) b j α = 0 := by
    intro b j α
    simp [funnyOut, hforces]
  constructor
  · simp [particleFlux, fluxBPparticle, fluxPSparticle, fluxCLparticle,
      hutheta, hfunny]
  · simp [heatFlux, fluxBPheat, fluxPSheat, fluxCLheat, hutheta, hfunny]

/-- Concrete configuration for the `C5` witness: one species with one
charge state, `ξ = 1`, `μ̂ = 0`, `M_script = I`, `N_script = 0`, unit
density/temperature/charge and unit flux-surface scalars — both linear
systems are the identity. -/
def wCfg : FlowConfig where
  K := 1
  ns := fun _ => 1
  xi := fun _ _ => 1
  mu := fun _ _ => 0
  Msc := fun _ => 1
  Nsc := fun _ _ => 0
  T := fun _ _ => 1
  n := fun _ _ => 1
  charge := fun _ _ => 1
  Fhat := 1
  B2fsav := 1
  Binv2fsav := 1
  FSAcl := 1
  kB := 1

/-- Witness for `C5_zero_gradient_zero_flux` on `wCfg`, at its single
species and charge state. -/
theorem C5_zero_gradient_zero_flux_witness :
    particleFlux wCfg (zeroGrad wCfg) (zeroGrad wCfg)
        ⟨0, Nat.one_pos⟩ ⟨0, Nat.one_pos⟩ = 0 ∧
    heatFlux wCfg (zeroGrad wCfg) (zeroGrad wCfg)
        ⟨0, Nat.one_pos⟩ ⟨0, Nat.one_pos⟩ = 0 := by
  have hA : ∀ (a : Fin wCfg.K) (i : Fin (wCfg.ns a)),
      AaiM wCfg a i = 1 := by
    intro a i
    simp [AaiM, wCfg]
  have hL : lhsBig wCfg = 1 := by
    ext p q
    simp [lhsBig, narray, wCfg, Matrix.one_apply]
  exact C5_zero_gradient_zero_flux wCfg
    (fun a i => one_ne_zero)
    (fun a i => one_ne_zero)
    (by intro a i; rw [hA a i, Matrix.det_one]; norm_num)
    (by rw [hL, Matrix.det_one]; norm_num)
    ⟨0, Nat.one_pos⟩ ⟨0, Nat.one_pos⟩
